import Mathlib

/-!
# Sequential model of the key/value list in `list.cpp`

The list of `list.cpp` is a singly linked chain of nodes, each owning a key,
a value and a checksum of the value.  One of three synchronisation
disciplines is selected when the program is built (`USE_MUTEX`, `USE_RWLOCK`,
`USE_RCU`); the discipline is a parameter of every operation below, so that
each function reads like its source with the `#if` branches as a `match`.

Conventions of the embedding:

* a `char` is the integer that `*p` evaluates to; a `char *` is the list of
  the chars found in memory from the pointer on, and the C string it denotes
  is the part before the first `0` (`c_str`);
* `int` is 32 bits wide, two's complement (`wrap_int`);
* a pointer that the code tests against `NULL` is an `Option`;
* the chain reachable from `head` is the list of its nodes in traversal
  order, `next` being the tail;
* a call that ends in `err`/`exit` yields `Except.error`;
* locks are not part of the sequential state: one thread runs, every
  acquire succeeds at once.
-/

namespace EswRcu

/-! ## Build configuration and machine arithmetic -/

/-- The discipline chosen at build time. -/
inductive Discipline where
  | USE_MUTEX
  | USE_RWLOCK
  | USE_RCU
  deriving DecidableEq, Repr

/-- Reasons for which the process is terminated. -/
inductive Fatal where
  | null_argument
  | primitive_init
  | wrong_checksum
  deriving DecidableEq, Repr

deriving instance DecidableEq for Except

/-- Reduction of an integer into the range of `int` (32 bits, two's
complement): the value an `int` object holds after an arithmetic result. -/
def wrap_int (x : Int) : Int := (x + 2147483648) % 4294967296 - 2147483648

/-- Largest value of `size_t` (64 bits). -/
def SIZE_MAX : Nat := 18446744073709551615

/-- The `size_t` expression `n - 1`, which wraps to `SIZE_MAX` at `n = 0`. -/
def size_pred (n : Nat) : Nat := if n = 0 then SIZE_MAX else n - 1

/-! ## The C library functions the source calls -/

/-- The C string found at a pointer: the chars before the first terminator. -/
def c_str : List Int → List Int
  | [] => []
  | c :: s => if c = 0 then [] else c :: c_str s

/-- Length of the C string at a pointer. -/
def strlen (s : List Int) : Nat := (c_str s).length

/-- The test `strcmp(a, b) == 0`: both pointers denote the same C string. -/
def strcmp_eq (a b : List Int) : Bool := decide (c_str a = c_str b)

/-- Zeroed memory of `n` chars. -/
def calloc (n : Nat) : List Int := List.replicate n 0

/-- Memory at `dst` after `strcpy(dst, src)`: the string and its terminator
overwrite the first `strlen(src) + 1` chars. -/
def strcpy (dst src : List Int) : List Int :=
  c_str src ++ 0 :: dst.drop (strlen src + 1)

/-- Memory at `dst` after `strncpy(dst, src, n)`: exactly `n` chars are
written, the string (cut at `n` chars) and then zero padding. -/
def strncpy (dst src : List Int) (n : Nat) : List Int :=
  (c_str src).take n ++ List.replicate (n - strlen src) 0 ++ dst.drop n

/-! ## Checksum -/

/-- The loop of `calc_checksum`, `sum` being the running total. -/
def calc_checksum_loop : List Int → Int → Int
  | [], sum => sum
  | c :: str, sum => if c = 0 then sum else calc_checksum_loop str (wrap_int (sum + c))

/-- Source function `calc_checksum`. -/
def calc_checksum (str : List Int) : Int := calc_checksum_loop str 0

/-! ## Data model -/

/-- A node of the chain; `next` is the rest of the list the node sits in. -/
structure esw_node_t where
  key : List Int
  value : List Int
  checksum : Int
  deriving DecidableEq, Repr

/-- The list handle: the chain reachable from `head`, first node first. -/
structure LIST_TYPE where
  head : List esw_node_t
  deriving DecidableEq, Repr

/-- What `esw_list_find` leaves behind: the caller's buffer and either the
returned flag or the fatal error that ended the call. -/
structure find_result where
  value : List Int
  found : Except Fatal Bool
  deriving DecidableEq

/-- Modelled from the spec: the macro `CHECKNULL` of `list.hpp`, a header
that is not among the sources; an absent argument is a reported, fatal
precondition violation. -/
def CHECKNULL {α : Type} (p : Option α) : Except Fatal α :=
  match p with
  | some x => Except.ok x
  | none => Except.error Fatal.null_argument

/-! ## Operations -/

/-- Source function `esw_list_create_node`. -/
def esw_list_create_node (key value : List Int) : esw_node_t :=
  let node_key := strcpy (calloc (strlen key + 1)) key
  let node_value := strcpy (calloc (strlen value + 1)) value
  ⟨node_key, node_value, calc_checksum value⟩

/-- Source function `esw_list_init`.  `primitive_ok` tells whether the lock
could be set up; the macro `CHECK` (of the absent `list.hpp`) is modelled
from the spec as fatal when it could not. -/
def esw_list_init (d : Discipline) (primitive_ok : Bool) (list : LIST_TYPE) :
    Except Fatal LIST_TYPE :=
  match d with
  | Discipline.USE_MUTEX =>
    if primitive_ok then Except.ok ⟨[]⟩ else Except.error Fatal.primitive_init
  | Discipline.USE_RWLOCK =>
    if primitive_ok then Except.ok list else Except.error Fatal.primitive_init
  | Discipline.USE_RCU => Except.ok ⟨[]⟩

/-- The library call `cds_list_add_rcu(&node->node, list)`: the node is
linked right after the list head. -/
def cds_list_add_rcu (node : esw_node_t) (list : LIST_TYPE) : LIST_TYPE :=
  ⟨node :: list.head⟩

/-- Source function `esw_list_push`. -/
def esw_list_push (d : Discipline) (list : Option LIST_TYPE)
    (key value : Option (List Int)) : Except Fatal LIST_TYPE :=
  match CHECKNULL list with
  | Except.error e => Except.error e
  | Except.ok list =>
    match CHECKNULL key with
    | Except.error e => Except.error e
    | Except.ok key =>
      match CHECKNULL value with
      | Except.error e => Except.error e
      | Except.ok value =>
        let node := esw_list_create_node key value
        match d with
        | Discipline.USE_MUTEX => Except.ok ⟨node :: list.head⟩
        | Discipline.USE_RWLOCK => Except.ok ⟨node :: list.head⟩
        | Discipline.USE_RCU => Except.ok (cds_list_add_rcu node list)

/-- The scan of `esw_list_update` under `USE_MUTEX` and `USE_RWLOCK`: the
first node whose key matches gets a fresh value and checksum in place. -/
def esw_list_update_loop (key value : List Int) : List esw_node_t → List esw_node_t
  | [] => []
  | current :: next =>
    if strcmp_eq current.key key then
      let node_value := strcpy (calloc (strlen value + 1)) value
      ⟨current.key, node_value, calc_checksum node_value⟩ :: next
    else current :: esw_list_update_loop key value next

/-- The scan of `esw_list_update` under `USE_RCU`: the first node whose key
matches is replaced (`cds_list_replace_rcu`) by a newly created node. -/
def esw_list_update_loop_rcu (key value : List Int) : List esw_node_t → List esw_node_t
  | [] => []
  | node :: n =>
    if strcmp_eq node.key key then esw_list_create_node key value :: n
    else node :: esw_list_update_loop_rcu key value n

/-- Source function `esw_list_update`. -/
def esw_list_update (d : Discipline) (list : Option LIST_TYPE)
    (key value : List Int) : Except Fatal LIST_TYPE :=
  match CHECKNULL list with
  | Except.error e => Except.error e
  | Except.ok list =>
    match d with
    | Discipline.USE_MUTEX => Except.ok ⟨esw_list_update_loop key value list.head⟩
    | Discipline.USE_RWLOCK => Except.ok ⟨esw_list_update_loop key value list.head⟩
    | Discipline.USE_RCU => Except.ok ⟨esw_list_update_loop_rcu key value list.head⟩

/-- The scan of `esw_list_find` under `USE_MUTEX` and `USE_RWLOCK`; `value`
is the caller's buffer. -/
def esw_list_find_loop (key value : List Int) (max_len : Nat) :
    List esw_node_t → find_result
  | [] => ⟨value, Except.ok false⟩
  | current :: next =>
    if strcmp_eq current.key key then
      if strlen current.value < max_len then
        let value1 := strcpy value current.value
        if calc_checksum value1 ≠ current.checksum then
          ⟨value1, Except.error Fatal.wrong_checksum⟩
        else ⟨value1, Except.ok true⟩
      else
        let value1 := (strncpy value current.value (size_pred max_len)).set (size_pred max_len) 0
        if calc_checksum value1 ≠ current.checksum then
          ⟨value1, Except.error Fatal.wrong_checksum⟩
        else ⟨value1, Except.ok true⟩
    else esw_list_find_loop key value max_len next

/-- The scan of `esw_list_find` under `USE_RCU`: the buffer is compared with
the stored value and never written. -/
def esw_list_find_loop_rcu (key value : List Int) : List esw_node_t → Bool
  | [] => false
  | node :: n =>
    if strcmp_eq node.key key then
      if strcmp_eq node.value value then true
      else esw_list_find_loop_rcu key value n
    else esw_list_find_loop_rcu key value n

/-- Source function `esw_list_find`. -/
def esw_list_find (d : Discipline) (list : Option LIST_TYPE) (key : Option (List Int))
    (value : List Int) (max_len : Nat) : find_result :=
  match CHECKNULL list with
  | Except.error e => ⟨value, Except.error e⟩
  | Except.ok list =>
    match CHECKNULL key with
    | Except.error e => ⟨value, Except.error e⟩
    | Except.ok key =>
      match d with
      | Discipline.USE_MUTEX => esw_list_find_loop key value max_len list.head
      | Discipline.USE_RWLOCK => esw_list_find_loop key value max_len list.head
      | Discipline.USE_RCU => ⟨value, Except.ok (esw_list_find_loop_rcu key value list.head)⟩

/-! ## Sequences of calls -/

/-- A mutating call with present (non-null) arguments. -/
inductive Op where
  | push (key value : List Int)
  | update (key value : List Int)
  deriving DecidableEq, Repr

/-- One call on a list handle. -/
def apply_op (d : Discipline) (list : LIST_TYPE) : Op → Except Fatal LIST_TYPE
  | Op.push key value => esw_list_push d (some list) (some key) (some value)
  | Op.update key value => esw_list_update d (some list) key value

/-- A finite sequence of calls, oldest first; a fatal call ends the run. -/
def run_ops (d : Discipline) : LIST_TYPE → List Op → Except Fatal LIST_TYPE
  | list, [] => Except.ok list
  | list, op :: ops =>
    match apply_op d list op with
    | Except.ok list1 => run_ops d list1 ops
    | Except.error e => Except.error e

/-- The value of the most recent push of key `k` in a sequence of pushed
(key, value) pairs, oldest first; keys are compared as C strings. -/
def last_pushed (k : List Int) : List (List Int × List Int) → Option (List Int)
  | [] => none
  | (key, value) :: rest =>
    match last_pushed k rest with
    | some v => some v
    | none => if strcmp_eq key k then some value else none

/-- The calls that push the given (key, value) pairs in order. -/
def push_ops (pushes : List (List Int × List Int)) : List Op :=
  pushes.map (fun p => Op.push p.1 p.2)

/-- The first node of a chain whose key is the C string `key`. -/
def first_match (key : List Int) : List esw_node_t → Option esw_node_t
  | [] => none
  | n :: rest => if strcmp_eq n.key key then some n else first_match key rest

/-! ## The list as its callers see it -/

/-- An entry of the list as a caller sees it: the key string, the value
string and the checksum of a node. -/
def entry (n : esw_node_t) : List Int × List Int × Int :=
  (c_str n.key, c_str n.value, n.checksum)

/-- The entries of a chain in traversal order. -/
def entries (ns : List esw_node_t) : List (List Int × List Int × Int) :=
  ns.map entry

/-- The update of the specification, on entries: the first entry whose key is
the string `key` gets the string `value` and the checksum of `value`; its
key, its position and all other entries stay. -/
def spec_update (key value : List Int) :
    List (List Int × List Int × Int) → List (List Int × List Int × Int)
  | [] => []
  | e :: es =>
    if e.1 = c_str key then (e.1, c_str value, calc_checksum value) :: es
    else e :: spec_update key value es

/-- One call of the specification, on entries: push puts the new entry
first. -/
def spec_apply (es : List (List Int × List Int × Int)) :
    Op → List (List Int × List Int × Int)
  | Op.push key value => (c_str key, c_str value, calc_checksum value) :: es
  | Op.update key value => spec_update key value es

/-- A finite sequence of calls of the specification, oldest first. -/
def spec_run (es : List (List Int × List Int × Int)) (ops : List Op) :
    List (List Int × List Int × Int) :=
  ops.foldl spec_apply es

/-! ## A call of push as a transformer of the whole state -/

/-- What a call of `esw_list_push` leaves behind: the chain the handle
reaches (nothing for a null handle), the nodes the call created, and how the
call ended. -/
structure push_result where
  list : Option LIST_TYPE
  created : List esw_node_t
  outcome : Except Fatal Unit
  deriving DecidableEq

/-- Source function `esw_list_push`, with the state it leaves made explicit:
the three checks come before the node is created and linked. -/
def esw_list_push_state (d : Discipline) (list : Option LIST_TYPE)
    (key value : Option (List Int)) : push_result :=
  match CHECKNULL list with
  | Except.error e => ⟨list, [], Except.error e⟩
  | Except.ok l =>
    match CHECKNULL key with
    | Except.error e => ⟨list, [], Except.error e⟩
    | Except.ok k =>
      match CHECKNULL value with
      | Except.error e => ⟨list, [], Except.error e⟩
      | Except.ok v =>
        let node := esw_list_create_node k v
        match d with
        | Discipline.USE_MUTEX => ⟨some ⟨node :: l.head⟩, [node], Except.ok ()⟩
        | Discipline.USE_RWLOCK => ⟨some ⟨node :: l.head⟩, [node], Except.ok ()⟩
        | Discipline.USE_RCU => ⟨some (cds_list_add_rcu node l), [node], Except.ok ()⟩

/-! ## Strings and checksums -/

theorem c_str_no_zero (s : List Int) : (0 : Int) ∉ c_str s := by
  induction s with
  | nil => simp [c_str]
  | cons c s ih =>
    by_cases h : c = 0
    · simp [c_str, h]
    · simp only [c_str, h, if_false, List.mem_cons, not_or]
      exact ⟨fun h0 => h h0.symm, ih⟩

theorem c_str_of_no_zero (s : List Int) (h : (0 : Int) ∉ s) : c_str s = s := by
  induction s with
  | nil => rfl
  | cons c s ih =>
    simp only [List.mem_cons, not_or] at h
    have hc : c ≠ 0 := fun e => h.1 e.symm
    simp [c_str, hc, ih h.2]

theorem c_str_idem (s : List Int) : c_str (c_str s) = c_str s :=
  c_str_of_no_zero _ (c_str_no_zero s)

theorem c_str_append_zero (s t : List Int) : c_str (c_str s ++ 0 :: t) = c_str s := by
  induction s with
  | nil => simp [c_str]
  | cons c s ih =>
    by_cases h : c = 0
    · simp [c_str, h]
    · simp [c_str, h, ih]

theorem c_str_strcpy (dst src : List Int) : c_str (strcpy dst src) = c_str src := by
  unfold strcpy; exact c_str_append_zero src _

theorem strlen_strcpy (dst src : List Int) : strlen (strcpy dst src) = strlen src := by
  unfold strlen; rw [c_str_strcpy]

theorem calc_checksum_loop_c_str (s : List Int) (sum : Int) :
    calc_checksum_loop (c_str s) sum = calc_checksum_loop s sum := by
  induction s generalizing sum with
  | nil => rfl
  | cons c s ih =>
    by_cases h : c = 0
    · simp [c_str, calc_checksum_loop, h]
    · simp [c_str, calc_checksum_loop, h, ih]

theorem calc_checksum_congr {s t : List Int} (h : c_str s = c_str t) :
    calc_checksum s = calc_checksum t := by
  unfold calc_checksum
  rw [← calc_checksum_loop_c_str s, ← calc_checksum_loop_c_str t, h]

theorem calc_checksum_strcpy (dst src : List Int) :
    calc_checksum (strcpy dst src) = calc_checksum src :=
  calc_checksum_congr (c_str_strcpy dst src)

theorem wrap_int_add_wrap (a c : Int) : wrap_int (wrap_int a + c) = wrap_int (a + c) := by
  unfold wrap_int
  omega

theorem wrap_int_of_range {x : Int} (h1 : -2147483648 ≤ x) (h2 : x < 2147483648) :
    wrap_int x = x := by
  unfold wrap_int
  omega

theorem wrap_int_idem (x : Int) : wrap_int (wrap_int x) = wrap_int x := by
  unfold wrap_int
  omega

theorem calc_checksum_loop_wrap (s : List Int) (sum : Int) :
    calc_checksum_loop s (wrap_int sum) = wrap_int (sum + (c_str s).sum) := by
  induction s generalizing sum with
  | nil => simp [calc_checksum_loop, c_str]
  | cons c s ih =>
    by_cases h : c = 0
    · simp [c_str, calc_checksum_loop, h]
    · simp only [c_str, calc_checksum_loop, h, if_false, List.sum_cons]
      rw [wrap_int_add_wrap, ih, add_assoc]

theorem calc_checksum_eq_wrap (s : List Int) :
    calc_checksum s = wrap_int (c_str s).sum := by
  have h := calc_checksum_loop_wrap s 0
  have h0 : wrap_int 0 = 0 := by decide
  rw [h0, zero_add] at h
  exact h

/-! ## The operations on present arguments -/

theorem esw_list_push_some (d : Discipline) (l : LIST_TYPE) (k v : List Int) :
    esw_list_push d (some l) (some k) (some v)
      = Except.ok ⟨esw_list_create_node k v :: l.head⟩ := by
  cases d <;> rfl

theorem esw_list_update_locking (d : Discipline) (hd : d ≠ Discipline.USE_RCU)
    (l : LIST_TYPE) (k v : List Int) :
    esw_list_update d (some l) k v = Except.ok ⟨esw_list_update_loop k v l.head⟩ := by
  cases d
  · rfl
  · rfl
  · exact absurd rfl hd

theorem esw_list_update_rcu (l : LIST_TYPE) (k v : List Int) :
    esw_list_update Discipline.USE_RCU (some l) k v
      = Except.ok ⟨esw_list_update_loop_rcu k v l.head⟩ := rfl

theorem esw_list_find_locking (d : Discipline) (hd : d ≠ Discipline.USE_RCU)
    (l : LIST_TYPE) (k buf : List Int) (max_len : Nat) :
    esw_list_find d (some l) (some k) buf max_len
      = esw_list_find_loop k buf max_len l.head := by
  cases d
  · rfl
  · rfl
  · exact absurd rfl hd

theorem esw_list_find_rcu (l : LIST_TYPE) (k buf : List Int) (max_len : Nat) :
    esw_list_find Discipline.USE_RCU (some l) (some k) buf max_len
      = ⟨buf, Except.ok (esw_list_find_loop_rcu k buf l.head)⟩ := rfl

/-! ## Checksum invariant -/

theorem create_node_checksum (k v : List Int) :
    (esw_list_create_node k v).checksum = calc_checksum (esw_list_create_node k v).value := by
  simp only [esw_list_create_node]
  exact (calc_checksum_strcpy _ v).symm

theorem update_loop_checksum (k v : List Int) (ns : List esw_node_t)
    (h : ∀ n ∈ ns, n.checksum = calc_checksum n.value) :
    ∀ n ∈ esw_list_update_loop k v ns, n.checksum = calc_checksum n.value := by
  induction ns with
  | nil => simp [esw_list_update_loop]
  | cons c ns ih =>
    intro n hn
    cases hk : strcmp_eq c.key k
    case true =>
      simp only [esw_list_update_loop, hk, if_true, List.mem_cons] at hn
      rcases hn with rfl | hn
      · rfl
      · exact h n (List.mem_cons_of_mem _ hn)
    case false =>
      simp only [esw_list_update_loop, hk, Bool.false_eq_true, if_false, List.mem_cons] at hn
      rcases hn with rfl | hn
      · exact h n (List.mem_cons_self _ _)
      · exact ih (fun m hm => h m (List.mem_cons_of_mem _ hm)) n hn

theorem update_loop_rcu_checksum (k v : List Int) (ns : List esw_node_t)
    (h : ∀ n ∈ ns, n.checksum = calc_checksum n.value) :
    ∀ n ∈ esw_list_update_loop_rcu k v ns, n.checksum = calc_checksum n.value := by
  induction ns with
  | nil => simp [esw_list_update_loop_rcu]
  | cons c ns ih =>
    intro n hn
    cases hk : strcmp_eq c.key k
    case true =>
      simp only [esw_list_update_loop_rcu, hk, if_true, List.mem_cons] at hn
      rcases hn with rfl | hn
      · exact create_node_checksum k v
      · exact h n (List.mem_cons_of_mem _ hn)
    case false =>
      simp only [esw_list_update_loop_rcu, hk, Bool.false_eq_true, if_false, List.mem_cons] at hn
      rcases hn with rfl | hn
      · exact h n (List.mem_cons_self _ _)
      · exact ih (fun m hm => h m (List.mem_cons_of_mem _ hm)) n hn

theorem apply_op_checksum (d : Discipline) (l : LIST_TYPE) (op : Op)
    (h : ∀ n ∈ l.head, n.checksum = calc_checksum n.value) :
    ∃ l1, apply_op d l op = Except.ok l1 ∧
      ∀ n ∈ l1.head, n.checksum = calc_checksum n.value := by
  cases op with
  | push k v =>
    refine ⟨_, esw_list_push_some d l k v, ?_⟩
    intro n hn
    simp only [List.mem_cons] at hn
    rcases hn with rfl | hn
    · exact create_node_checksum k v
    · exact h n hn
  | update k v =>
    by_cases hd : d = Discipline.USE_RCU
    · subst hd
      exact ⟨_, esw_list_update_rcu l k v, update_loop_rcu_checksum k v l.head h⟩
    · exact ⟨_, esw_list_update_locking d hd l k v, update_loop_checksum k v l.head h⟩

theorem run_ops_checksum (d : Discipline) (ops : List Op) (l : LIST_TYPE)
    (h : ∀ n ∈ l.head, n.checksum = calc_checksum n.value) :
    ∃ l1, run_ops d l ops = Except.ok l1 ∧
      ∀ n ∈ l1.head, n.checksum = calc_checksum n.value := by
  induction ops generalizing l with
  | nil => exact ⟨l, rfl, h⟩
  | cons op ops ih =>
    obtain ⟨l1, h1, hinv⟩ := apply_op_checksum d l op h
    obtain ⟨l2, h2, hinv2⟩ := ih l1 hinv
    refine ⟨l2, ?_, hinv2⟩
    simp only [run_ops, h1]
    exact h2

/-! ## Scans that meet no matching key -/

theorem update_loop_no_match (k v : List Int) (ns : List esw_node_t)
    (h : ∀ n ∈ ns, strcmp_eq n.key k = false) : esw_list_update_loop k v ns = ns := by
  induction ns with
  | nil => rfl
  | cons c ns ih =>
    have hc := h c (List.mem_cons_self _ _)
    simp only [esw_list_update_loop, hc, Bool.false_eq_true, if_false]
    rw [ih (fun m hm => h m (List.mem_cons_of_mem _ hm))]

theorem update_loop_rcu_no_match (k v : List Int) (ns : List esw_node_t)
    (h : ∀ n ∈ ns, strcmp_eq n.key k = false) : esw_list_update_loop_rcu k v ns = ns := by
  induction ns with
  | nil => rfl
  | cons c ns ih =>
    have hc := h c (List.mem_cons_self _ _)
    simp only [esw_list_update_loop_rcu, hc, Bool.false_eq_true, if_false]
    rw [ih (fun m hm => h m (List.mem_cons_of_mem _ hm))]

theorem find_loop_no_match (k buf : List Int) (max_len : Nat) (ns : List esw_node_t)
    (h : ∀ n ∈ ns, strcmp_eq n.key k = false) :
    esw_list_find_loop k buf max_len ns = ⟨buf, Except.ok false⟩ := by
  induction ns with
  | nil => rfl
  | cons c ns ih =>
    have hc := h c (List.mem_cons_self _ _)
    simp only [esw_list_find_loop, hc, Bool.false_eq_true, if_false]
    exact ih (fun m hm => h m (List.mem_cons_of_mem _ hm))

theorem find_loop_rcu_no_match (k buf : List Int) (ns : List esw_node_t)
    (h : ∀ n ∈ ns, strcmp_eq n.key k = false) :
    esw_list_find_loop_rcu k buf ns = false := by
  induction ns with
  | nil => rfl
  | cons c ns ih =>
    have hc := h c (List.mem_cons_self _ _)
    simp only [esw_list_find_loop_rcu, hc, Bool.false_eq_true, if_false]
    exact ih (fun m hm => h m (List.mem_cons_of_mem _ hm))

/-! ## Scans that meet a matching key -/

theorem update_loop_first_match (k v : List Int) (pre post : List esw_node_t) (n : esw_node_t)
    (hpre : ∀ m ∈ pre, strcmp_eq m.key k = false) (hn : strcmp_eq n.key k = true) :
    esw_list_update_loop k v (pre ++ n :: post)
      = pre ++ ⟨n.key, strcpy (calloc (strlen v + 1)) v,
          calc_checksum (strcpy (calloc (strlen v + 1)) v)⟩ :: post := by
  induction pre with
  | nil => simp [esw_list_update_loop, hn]
  | cons c pre ih =>
    have hc := hpre c (List.mem_cons_self _ _)
    simp only [List.cons_append, esw_list_update_loop, hc, Bool.false_eq_true, if_false]
    exact congrArg (List.cons c) (ih (fun m hm => hpre m (List.mem_cons_of_mem _ hm)))

theorem update_loop_rcu_first_match (k v : List Int) (pre post : List esw_node_t)
    (n : esw_node_t)
    (hpre : ∀ m ∈ pre, strcmp_eq m.key k = false) (hn : strcmp_eq n.key k = true) :
    esw_list_update_loop_rcu k v (pre ++ n :: post)
      = pre ++ esw_list_create_node k v :: post := by
  induction pre with
  | nil => simp [esw_list_update_loop_rcu, hn]
  | cons c pre ih =>
    have hc := hpre c (List.mem_cons_self _ _)
    simp only [List.cons_append, esw_list_update_loop_rcu, hc, Bool.false_eq_true, if_false]
    exact congrArg (List.cons c) (ih (fun m hm => hpre m (List.mem_cons_of_mem _ hm)))

/-! ## The scan of find under the locking disciplines -/

theorem strcpy_congr (buf : List Int) {s t : List Int} (h : c_str s = c_str t) :
    strcpy buf s = strcpy buf t := by
  unfold strcpy strlen
  rw [h]

theorem first_match_mem {k : List Int} {ns : List esw_node_t} {n : esw_node_t}
    (h : first_match k ns = some n) : n ∈ ns ∧ strcmp_eq n.key k = true := by
  induction ns with
  | nil => simp [first_match] at h
  | cons c ns ih =>
    cases hk : strcmp_eq c.key k
    case true =>
      simp only [first_match, hk, if_true, Option.some.injEq] at h
      subst h
      exact ⟨List.mem_cons_self _ _, hk⟩
    case false =>
      simp only [first_match, hk, Bool.false_eq_true, if_false] at h
      exact ⟨List.mem_cons_of_mem _ (ih h).1, (ih h).2⟩

theorem first_match_none {k : List Int} {ns : List esw_node_t}
    (h : ∀ n ∈ ns, strcmp_eq n.key k = false) : first_match k ns = none := by
  induction ns with
  | nil => rfl
  | cons c ns ih =>
    have hc := h c (List.mem_cons_self _ _)
    simp only [first_match, hc, Bool.false_eq_true, if_false]
    exact ih (fun m hm => h m (List.mem_cons_of_mem _ hm))

theorem first_match_split {k : List Int} {ns : List esw_node_t} {n : esw_node_t}
    (h : first_match k ns = some n) :
    ∃ pre post, ns = pre ++ n :: post ∧ (∀ m ∈ pre, strcmp_eq m.key k = false) ∧
      strcmp_eq n.key k = true := by
  induction ns with
  | nil => simp [first_match] at h
  | cons c ns ih =>
    cases hk : strcmp_eq c.key k
    case true =>
      simp only [first_match, hk, if_true, Option.some.injEq] at h
      subst h
      exact ⟨[], ns, rfl, by simp, hk⟩
    case false =>
      simp only [first_match, hk, Bool.false_eq_true, if_false] at h
      obtain ⟨pre, post, hs, hpre, hn⟩ := ih h
      refine ⟨c :: pre, post, by rw [hs]; rfl, ?_, hn⟩
      intro m hm
      simp only [List.mem_cons] at hm
      rcases hm with rfl | hm
      · exact hk
      · exact hpre m hm

theorem find_loop_short (k buf : List Int) (max_len : Nat) (ns : List esw_node_t)
    (n : esw_node_t) (hfirst : first_match k ns = some n)
    (hsum : n.checksum = calc_checksum n.value) (hlen : strlen n.value < max_len) :
    esw_list_find_loop k buf max_len ns = ⟨strcpy buf n.value, Except.ok true⟩ := by
  induction ns with
  | nil => simp [first_match] at hfirst
  | cons c ns ih =>
    cases hk : strcmp_eq c.key k
    case true =>
      simp only [first_match, hk, if_true, Option.some.injEq] at hfirst
      subst hfirst
      simp only [esw_list_find_loop, hk, if_true, hlen, calc_checksum_strcpy, hsum, ne_eq,
        not_true_eq_false, if_false]
    case false =>
      simp only [first_match, hk, Bool.false_eq_true, if_false] at hfirst
      simp only [esw_list_find_loop, hk, Bool.false_eq_true, if_false]
      exact ih hfirst

theorem set_append_length (a b : List Int) (x : Int) :
    (a ++ b).set a.length x = a ++ b.set 0 x := by
  induction a with
  | nil => rfl
  | cons c a ih => simp [List.set, ih]

theorem drop_set_zero (buf : List Int) (i : Nat) (x : Int) (h : i < buf.length) :
    (buf.drop i).set 0 x = x :: buf.drop (i + 1) := by
  induction buf generalizing i with
  | nil => simp at h
  | cons c buf ih =>
    cases i with
    | zero => simp [List.set]
    | succ i =>
      simp only [List.drop_succ_cons]
      exact ih i (by simpa using h)

theorem truncated_copy (buf v : List Int) (max_len : Nat) (h1 : 1 ≤ max_len)
    (hlen : max_len ≤ strlen v) (hcap : max_len ≤ buf.length) :
    (strncpy buf v (size_pred max_len)).set (size_pred max_len) 0
      = (c_str v).take (max_len - 1) ++ 0 :: buf.drop max_len := by
  have hp : size_pred max_len = max_len - 1 := by
    unfold size_pred
    rw [if_neg (by omega)]
  have hz : max_len - 1 - strlen v = 0 := by omega
  have hl : ((c_str v).take (max_len - 1)).length = max_len - 1 := by
    rw [List.length_take]
    unfold strlen at hlen
    omega
  have hset : ∀ a : List Int, a.length = max_len - 1 →
      (a ++ buf.drop (max_len - 1)).set (max_len - 1) 0 = a ++ 0 :: buf.drop max_len := by
    intro a ha
    have hs := set_append_length a (buf.drop (max_len - 1)) 0
    rw [ha, drop_set_zero buf (max_len - 1) 0 (by omega)] at hs
    have hm : max_len - 1 + 1 = max_len := by omega
    rw [hm] at hs
    exact hs
  rw [hp]
  unfold strncpy
  rw [hz, List.replicate_zero, List.append_nil]
  exact hset _ hl

theorem find_loop_long (k buf : List Int) (max_len : Nat) (ns : List esw_node_t)
    (n : esw_node_t) (hfirst : first_match k ns = some n)
    (h1 : 1 ≤ max_len) (hlen : max_len ≤ strlen n.value) (hcap : max_len ≤ buf.length) :
    (esw_list_find_loop k buf max_len ns).value
      = (c_str n.value).take (max_len - 1) ++ 0 :: buf.drop max_len := by
  induction ns with
  | nil => simp [first_match] at hfirst
  | cons c ns ih =>
    cases hk : strcmp_eq c.key k
    case true =>
      simp only [first_match, hk, if_true, Option.some.injEq] at hfirst
      subst hfirst
      have hnot : ¬ strlen c.value < max_len := by omega
      simp only [esw_list_find_loop, hk, if_true, hnot, if_false]
      rw [truncated_copy buf c.value max_len h1 hlen hcap]
      split <;> rfl
    case false =>
      simp only [first_match, hk, Bool.false_eq_true, if_false] at hfirst
      simp only [esw_list_find_loop, hk, Bool.false_eq_true, if_false]
      exact ih hfirst

/-! ## Owned copies -/

theorem owned_copy (s : List Int) : strcpy (calloc (strlen s + 1)) s = c_str s ++ [0] := by
  unfold strcpy calloc
  rw [List.drop_eq_nil_of_le (by simp)]

theorem c_str_owned (s : List Int) : c_str (c_str s ++ [0]) = c_str s :=
  c_str_append_zero s []

/-! ## Pushes followed by a find, locking disciplines -/

theorem first_match_append (k : List Int) (a b : List esw_node_t) :
    first_match k (a ++ b)
      = match first_match k a with
        | some n => some n
        | none => first_match k b := by
  induction a with
  | nil => rfl
  | cons c a ih =>
    cases hk : strcmp_eq c.key k
    case true => simp [first_match, hk]
    case false => simpa [first_match, hk] using ih

theorem strcmp_eq_created_key (key value k : List Int) :
    strcmp_eq (esw_list_create_node key value).key k = strcmp_eq key k := by
  simp only [esw_list_create_node, strcmp_eq, c_str_strcpy]

theorem run_push_ops (d : Discipline) (ps : List (List Int × List Int)) (l : LIST_TYPE) :
    run_ops d l (push_ops ps)
      = Except.ok ⟨(ps.map (fun p => esw_list_create_node p.1 p.2)).reverse ++ l.head⟩ := by
  induction ps generalizing l with
  | nil => rfl
  | cons p ps ih =>
    simp only [push_ops, List.map_cons, run_ops, apply_op, esw_list_push_some]
    have h := ih ⟨esw_list_create_node p.1 p.2 :: l.head⟩
    simp only [push_ops] at h
    rw [h]
    simp

theorem first_match_pushed (k : List Int) (ps : List (List Int × List Int)) :
    match last_pushed k ps with
    | some v => ∃ key, first_match k (ps.map (fun p => esw_list_create_node p.1 p.2)).reverse
          = some (esw_list_create_node key v)
    | none => first_match k (ps.map (fun p => esw_list_create_node p.1 p.2)).reverse = none := by
  induction ps with
  | nil => simp [last_pushed, first_match]
  | cons p ps ih =>
    obtain ⟨key, value⟩ := p
    simp only [last_pushed, List.map_cons, List.reverse_cons, first_match_append]
    cases hl : last_pushed k ps with
    | some v =>
      rw [hl] at ih
      obtain ⟨key1, h1⟩ := ih
      exact ⟨key1, by rw [h1]⟩
    | none =>
      rw [hl] at ih
      simp only [ih, first_match, strcmp_eq_created_key]
      cases hk : strcmp_eq key k
      case true => exact ⟨key, by simp⟩
      case false => simp

/-- Under the mutex and reader-writer disciplines, after any sequence of
pushes onto the empty list, find for a key that was pushed returns true and
leaves the most recently pushed value of that key, terminated, in the buffer. -/
theorem find_after_pushes_locking (d : Discipline) (hd : d ≠ Discipline.USE_RCU)
    (ps : List (List Int × List Int)) (k v buf : List Int) (max_len : Nat)
    (hlast : last_pushed k ps = some v) (hlen : strlen v < max_len) :
    ∃ l, run_ops d ⟨[]⟩ (push_ops ps) = Except.ok l ∧
      esw_list_find d (some l) (some k) buf max_len = ⟨strcpy buf v, Except.ok true⟩ ∧
      c_str (strcpy buf v) = c_str v := by
  refine ⟨_, run_push_ops d ps ⟨[]⟩, ?_, c_str_strcpy buf v⟩
  have hf := first_match_pushed k ps
  rw [hlast] at hf
  obtain ⟨key, hkey⟩ := hf
  rw [esw_list_find_locking d hd]
  simp only [List.append_nil]
  have hv : c_str (esw_list_create_node key v).value = c_str v := by
    simp only [esw_list_create_node, c_str_strcpy]
  rw [find_loop_short k buf max_len _ _ hkey (create_node_checksum key v)
    (by unfold strlen; rw [hv]; exact hlen)]
  rw [strcpy_congr buf hv]

/-! ## Update followed by a find, locking disciplines -/

theorem first_match_update_loop (k v : List Int) (ns : List esw_node_t) (n : esw_node_t)
    (h : first_match k ns = some n) :
    first_match k (esw_list_update_loop k v ns)
      = some ⟨n.key, strcpy (calloc (strlen v + 1)) v,
          calc_checksum (strcpy (calloc (strlen v + 1)) v)⟩ := by
  induction ns with
  | nil => simp [first_match] at h
  | cons c ns ih =>
    cases hk : strcmp_eq c.key k
    case true =>
      simp only [first_match, hk, if_true, Option.some.injEq] at h
      subst h
      simp only [esw_list_update_loop, hk, if_true, first_match]
    case false =>
      simp only [first_match, hk, Bool.false_eq_true, if_false] at h
      simp only [esw_list_update_loop, hk, Bool.false_eq_true, if_false, first_match]
      exact ih h

/-- Under the mutex and reader-writer disciplines, once a key present in the
list has been updated, find for it returns true with the new value in the
buffer. -/
theorem find_after_update_locking (d : Discipline) (hd : d ≠ Discipline.USE_RCU)
    (l : LIST_TYPE) (k v buf : List Int) (max_len : Nat) (n : esw_node_t)
    (hfirst : first_match k l.head = some n) (hlen : strlen v < max_len) :
    ∃ l1, esw_list_update d (some l) k v = Except.ok l1 ∧
      esw_list_find d (some l1) (some k) buf max_len = ⟨strcpy buf v, Except.ok true⟩ ∧
      c_str (strcpy buf v) = c_str v := by
  refine ⟨_, esw_list_update_locking d hd l k v, ?_, c_str_strcpy buf v⟩
  rw [esw_list_find_locking d hd]
  have hf := first_match_update_loop k v l.head n hfirst
  have hv : c_str (strcpy (calloc (strlen v + 1)) v) = c_str v := c_str_strcpy _ v
  have hl : strlen (strcpy (calloc (strlen v + 1)) v) < max_len := by
    rw [strlen_strcpy]
    exact hlen
  rw [find_loop_short k buf max_len _ _ hf rfl hl]
  exact congrArg (fun b => find_result.mk b (Except.ok true)) (strcpy_congr buf hv)

/-- Under the mutex and reader-writer disciplines, when the first node with
the key stores at least `max_len` chars, find leaves the first `max_len - 1`
of them and a terminator at the start of the buffer, the rest untouched. -/
theorem find_truncates_locking (d : Discipline) (hd : d ≠ Discipline.USE_RCU)
    (l : LIST_TYPE) (k buf : List Int) (max_len : Nat) (n : esw_node_t)
    (hfirst : first_match k l.head = some n) (h1 : 1 ≤ max_len)
    (hlen : max_len ≤ strlen n.value) (hcap : max_len ≤ buf.length) :
    (esw_list_find d (some l) (some k) buf max_len).value
      = (c_str n.value).take (max_len - 1) ++ 0 :: buf.drop max_len := by
  rw [esw_list_find_locking d hd]
  exact find_loop_long k buf max_len l.head n hfirst h1 hlen hcap

/-- Under the mutex and lock-free disciplines, init empties the list whatever
the handle held, and find on the result returns false for every key. -/
theorem init_empties_mutex_rcu (d : Discipline) (hd : d ≠ Discipline.USE_RWLOCK)
    (l : LIST_TYPE) (k buf : List Int) (max_len : Nat) :
    esw_list_init d true l = Except.ok ⟨[]⟩ ∧
      esw_list_find d (some ⟨[]⟩) (some k) buf max_len = ⟨buf, Except.ok false⟩ := by
  cases d
  · exact ⟨rfl, rfl⟩
  · exact absurd rfl hd
  · exact ⟨rfl, rfl⟩

/-! ## Checksums of concatenations and rearrangements -/

theorem c_str_append_of_no_zero (a b : List Int) (h : (0 : Int) ∉ a) :
    c_str (a ++ b) = a ++ c_str b := by
  induction a with
  | nil => rfl
  | cons c a ih =>
    simp only [List.mem_cons, not_or] at h
    have hc : c ≠ 0 := fun e => h.1 e.symm
    simp only [List.cons_append, c_str, hc, if_false]
    exact congrArg (List.cons c) (ih h.2)

theorem wrap_int_add (x y : Int) : wrap_int (wrap_int x + wrap_int y) = wrap_int (x + y) := by
  unfold wrap_int
  omega

theorem calc_checksum_append (a b : List Int) (h : (0 : Int) ∉ a) :
    calc_checksum (a ++ b) = wrap_int (calc_checksum a + calc_checksum b) := by
  rw [calc_checksum_eq_wrap, calc_checksum_eq_wrap a, calc_checksum_eq_wrap b,
    c_str_append_of_no_zero a b h, c_str_of_no_zero a h, List.sum_append, wrap_int_add]

theorem calc_checksum_perm {a p : List Int} (hp : p.Perm a) (h : (0 : Int) ∉ a) :
    calc_checksum p = calc_checksum a := by
  have hz : (0 : Int) ∉ p := fun hm => h (hp.mem_iff.mp hm)
  rw [calc_checksum_eq_wrap, calc_checksum_eq_wrap a, c_str_of_no_zero a h,
    c_str_of_no_zero p hz, hp.sum_eq]

/-! ## Reads that are not cut short -/

theorem first_match_eq_none {k : List Int} {ns : List esw_node_t}
    (h : first_match k ns = none) : ∀ n ∈ ns, strcmp_eq n.key k = false := by
  induction ns with
  | nil => simp
  | cons c ns ih =>
    cases hk : strcmp_eq c.key k
    case true => simp [first_match, hk] at h
    case false =>
      simp only [first_match, hk, Bool.false_eq_true, if_false] at h
      intro n hn
      simp only [List.mem_cons] at hn
      rcases hn with rfl | hn
      · exact hk
      · exact ih h n hn

theorem find_loop_returns (k buf : List Int) (max_len : Nat) (ns : List esw_node_t)
    (hsum : ∀ n ∈ ns, n.checksum = calc_checksum n.value)
    (hlen : ∀ n, first_match k ns = some n → strlen n.value < max_len) :
    (esw_list_find_loop k buf max_len ns).found
      = Except.ok (first_match k ns).isSome := by
  cases hf : first_match k ns with
  | none =>
    rw [find_loop_no_match k buf max_len ns (first_match_eq_none hf)]
    rfl
  | some n =>
    rw [find_loop_short k buf max_len ns n hf (hsum n (first_match_mem hf).1) (hlen n hf)]
    rfl

/-! ## Entries under the three disciplines -/

theorem entry_created (k v : List Int) :
    entry (esw_list_create_node k v) = (c_str k, c_str v, calc_checksum v) := by
  simp only [entry, esw_list_create_node, c_str_strcpy]

theorem entries_update_loop (k v : List Int) (ns : List esw_node_t) :
    entries (esw_list_update_loop k v ns) = spec_update k v (entries ns) := by
  induction ns with
  | nil => rfl
  | cons c ns ih =>
    cases hk : strcmp_eq c.key k
    case true =>
      have hc : c_str c.key = c_str k := by simpa [strcmp_eq] using hk
      simp only [esw_list_update_loop, hk, if_true, entries, List.map_cons, spec_update, entry,
        hc, c_str_strcpy, calc_checksum_strcpy]
    case false =>
      have hc : ¬ c_str c.key = c_str k := by simpa [strcmp_eq] using hk
      simp only [esw_list_update_loop, hk, Bool.false_eq_true, if_false, entries, List.map_cons,
        spec_update, entry, hc]
      exact congrArg (List.cons _) ih

theorem entries_update_loop_rcu (k v : List Int) (ns : List esw_node_t) :
    entries (esw_list_update_loop_rcu k v ns) = spec_update k v (entries ns) := by
  induction ns with
  | nil => rfl
  | cons c ns ih =>
    cases hk : strcmp_eq c.key k
    case true =>
      have hc : c_str c.key = c_str k := by simpa [strcmp_eq] using hk
      simp only [esw_list_update_loop_rcu, hk, if_true, entries, List.map_cons, spec_update,
        entry_created]
      simp only [entry, hc, if_true]
    case false =>
      have hc : ¬ c_str c.key = c_str k := by simpa [strcmp_eq] using hk
      simp only [esw_list_update_loop_rcu, hk, Bool.false_eq_true, if_false, entries,
        List.map_cons, spec_update, entry, hc]
      exact congrArg (List.cons _) ih

theorem apply_op_entries (d : Discipline) (l : LIST_TYPE) (op : Op) :
    ∃ l1, apply_op d l op = Except.ok l1 ∧
      entries l1.head = spec_apply (entries l.head) op := by
  cases op with
  | push k v =>
    refine ⟨_, esw_list_push_some d l k v, ?_⟩
    simp only [entries, List.map_cons, entry_created, spec_apply]
  | update k v =>
    by_cases hd : d = Discipline.USE_RCU
    · subst hd
      exact ⟨_, esw_list_update_rcu l k v, entries_update_loop_rcu k v l.head⟩
    · exact ⟨_, esw_list_update_locking d hd l k v, entries_update_loop k v l.head⟩

theorem run_ops_entries (d : Discipline) (ops : List Op) (l : LIST_TYPE) :
    ∃ l1, run_ops d l ops = Except.ok l1 ∧
      entries l1.head = spec_run (entries l.head) ops := by
  induction ops generalizing l with
  | nil => exact ⟨l, rfl, rfl⟩
  | cons op ops ih =>
    obtain ⟨l1, h1, e1⟩ := apply_op_entries d l op
    obtain ⟨l2, h2, e2⟩ := ih l1
    refine ⟨l2, ?_, ?_⟩
    · simp only [run_ops, h1, h2]
    · rw [e2, e1]
      rfl

/-! ## The integrity check after a copy that was cut short -/

theorem wrap_int_eq_add_iff (a b : Int) : wrap_int a = wrap_int (a + b) ↔ wrap_int b = 0 := by
  unfold wrap_int
  omega

theorem calc_checksum_take (v t : List Int) (i : Nat) :
    calc_checksum ((c_str v).take i ++ 0 :: t) = wrap_int ((c_str v).take i).sum := by
  have hz : (0 : Int) ∉ (c_str v).take i := fun h => c_str_no_zero v (List.mem_of_mem_take h)
  rw [calc_checksum_eq_wrap, c_str_append_of_no_zero _ _ hz]
  simp [c_str]

theorem checksum_split (v : List Int) (i : Nat) :
    calc_checksum v = wrap_int (((c_str v).take i).sum + ((c_str v).drop i).sum) := by
  rw [calc_checksum_eq_wrap, ← List.sum_append, List.take_append_drop]

theorem sum_nonneg_of_pos (s : List Int) (h : ∀ c ∈ s, 0 < c) : 0 ≤ s.sum := by
  induction s with
  | nil => simp
  | cons c s ih =>
    have hc := h c (List.mem_cons_self _ _)
    have hs := ih (fun x hx => h x (List.mem_cons_of_mem _ hx))
    simp only [List.sum_cons]
    omega

theorem sum_drop_bounds (s : List Int) (i : Nat) (h : ∀ c ∈ s, 0 < c) (hi : i < s.length) :
    0 < (s.drop i).sum ∧ (s.drop i).sum ≤ s.sum := by
  have htake : 0 ≤ (s.take i).sum :=
    sum_nonneg_of_pos _ (fun c hc => h c (List.mem_of_mem_take hc))
  have hsplit : s.sum = (s.take i).sum + (s.drop i).sum := by
    rw [← List.sum_append, List.take_append_drop]
  have hdrop : 0 < (s.drop i).sum := by
    cases hd : s.drop i with
    | nil =>
      have := congrArg List.length hd
      simp only [List.length_drop, List.length_nil] at this
      omega
    | cons c r =>
      have hmem : ∀ x ∈ c :: r, 0 < x := by
        intro x hx
        rw [← hd] at hx
        exact h x (List.mem_of_mem_drop hx)
      have hc := hmem c (List.mem_cons_self _ _)
      have hr := sum_nonneg_of_pos r (fun x hx => hmem x (List.mem_cons_of_mem _ hx))
      simp only [List.sum_cons]
      omega
  exact ⟨hdrop, by omega⟩

theorem find_loop_long_found (k buf : List Int) (max_len : Nat) (ns : List esw_node_t)
    (n : esw_node_t) (hfirst : first_match k ns = some n)
    (hsum : n.checksum = calc_checksum n.value)
    (h1 : 1 ≤ max_len) (hlen : max_len ≤ strlen n.value) (hcap : max_len ≤ buf.length) :
    (esw_list_find_loop k buf max_len ns).found
      = if wrap_int ((c_str n.value).drop (max_len - 1)).sum = 0 then Except.ok true
        else Except.error Fatal.wrong_checksum := by
  induction ns with
  | nil => simp [first_match] at hfirst
  | cons c ns ih =>
    cases hk : strcmp_eq c.key k
    case true =>
      simp only [first_match, hk, if_true, Option.some.injEq] at hfirst
      subst hfirst
      have hnot : ¬ strlen c.value < max_len := by omega
      simp only [esw_list_find_loop, hk, if_true, hnot, if_false]
      rw [truncated_copy buf c.value max_len h1 hlen hcap, calc_checksum_take, hsum,
        checksum_split c.value (max_len - 1)]
      by_cases hz : wrap_int ((c_str c.value).drop (max_len - 1)).sum = 0
      · have he := (wrap_int_eq_add_iff ((c_str c.value).take (max_len - 1)).sum _).mpr hz
        simp only [ne_eq, he, not_true_eq_false, if_false, hz, if_true]
      · have he : ¬ wrap_int ((c_str c.value).take (max_len - 1)).sum
            = wrap_int (((c_str c.value).take (max_len - 1)).sum
                + ((c_str c.value).drop (max_len - 1)).sum) :=
          fun e => hz ((wrap_int_eq_add_iff _ _).mp e)
        simp only [ne_eq, he, not_false_eq_true, if_true, hz, if_false]
    case false =>
      simp only [first_match, hk, Bool.false_eq_true, if_false] at hfirst
      simp only [esw_list_find_loop, hk, Bool.false_eq_true, if_false]
      exact ih hfirst

theorem c_str_terminated (s : List Int) (h : (0 : Int) ∉ s) : c_str (s ++ [0]) = s := by
  rw [c_str_append_of_no_zero s [0] h]
  simp [c_str]

/-- The check after a cut copy can pass with positive chars only: "A"
followed by 67108864 chars '@' sums to 65 + 2^32, which is 65 in `int`
arithmetic, the checksum of the cut copy "A"; with `max_len = 2` find
returns true under the mutex discipline. -/
theorem find_truncated_positive_chars (buf : List Int) (hcap : 2 ≤ buf.length) :
    (esw_list_find Discipline.USE_MUTEX
        (some ⟨[⟨[97, 0], (65 :: List.replicate 67108864 64) ++ [0], 65⟩]⟩) (some [97, 0])
        buf 2).found = Except.ok true := by
  have hz : (0 : Int) ∉ (65 :: List.replicate 67108864 (64 : Int)) := by
    intro h
    rcases List.mem_cons.mp h with h | h
    · omega
    · have := List.eq_of_mem_replicate h
      omega
  have hc : c_str ((65 :: List.replicate 67108864 (64 : Int)) ++ [0])
      = 65 :: List.replicate 67108864 64 := c_str_terminated _ hz
  have hsum : (65 : Int) = calc_checksum ((65 :: List.replicate 67108864 (64 : Int)) ++ [0]) := by
    rw [calc_checksum_eq_wrap, hc, List.sum_cons, List.sum_replicate]
    simp only [wrap_int, smul_eq_mul]
    norm_num
  have hlen : 2 ≤ strlen ((65 :: List.replicate 67108864 (64 : Int)) ++ [0]) := by
    unfold strlen
    rw [hc, List.length_cons, List.length_replicate]
    omega
  have hfirst : first_match [97, 0]
      [(⟨[97, 0], (65 :: List.replicate 67108864 64) ++ [0], 65⟩ : esw_node_t)]
      = some ⟨[97, 0], (65 :: List.replicate 67108864 64) ++ [0], 65⟩ := by
    have hk : strcmp_eq [97, 0] [97, 0] = true := by decide
    simp only [first_match, hk, if_true]
  rw [esw_list_find_locking Discipline.USE_MUTEX (by decide),
    find_loop_long_found [97, 0] buf 2 _ _ hfirst hsum (by omega) hlen hcap]
  have hd : (c_str ((65 :: List.replicate 67108864 (64 : Int)) ++ [0])).drop (2 - 1)
      = List.replicate 67108864 64 := by
    rw [hc]
    rfl
  have hw : wrap_int (List.replicate 67108864 (64 : Int)).sum = 0 := by
    rw [List.sum_replicate]
    simp only [wrap_int, smul_eq_mul]
    norm_num
  simp only [hd, hw, if_true]

/-! ## The claims -/

/-- C1, evaluated under `USE_RCU`: after init and push("a", "1"), find("a")
with a zeroed buffer of 8 chars returns false and leaves the buffer zeroed,
where the claim has it return true with "1" in the buffer. -/
theorem rcu_find_after_push_misses :
    esw_list_init Discipline.USE_RCU true ⟨[]⟩ = Except.ok ⟨[]⟩ ∧
    run_ops Discipline.USE_RCU ⟨[]⟩ [Op.push [97, 0] [49, 0]]
      = Except.ok ⟨[⟨[97, 0], [49, 0], 49⟩]⟩ ∧
    esw_list_find Discipline.USE_RCU (some ⟨[⟨[97, 0], [49, 0], 49⟩]⟩) (some [97, 0])
        [0, 0, 0, 0, 0, 0, 0, 0] 8
      = ⟨[0, 0, 0, 0, 0, 0, 0, 0], Except.ok false⟩ := by
  decide

/-- C2, evaluated under `USE_RCU`: after push("a", "1"), push("b", "2"),
update("a", "99"), find("a") with a zeroed buffer of 8 chars returns false and
writes nothing, where the claim has it return true with "99" in the buffer;
find("c") returns false as claimed. -/
theorem rcu_find_after_update_misses :
    run_ops Discipline.USE_RCU ⟨[]⟩
        [Op.push [97, 0] [49, 0], Op.push [98, 0] [50, 0], Op.update [97, 0] [57, 57, 0]]
      = Except.ok ⟨[⟨[98, 0], [50, 0], 50⟩, ⟨[97, 0], [57, 57, 0], 114⟩]⟩ ∧
    esw_list_find Discipline.USE_RCU
        (some ⟨[⟨[98, 0], [50, 0], 50⟩, ⟨[97, 0], [57, 57, 0], 114⟩]⟩) (some [97, 0])
        [0, 0, 0, 0, 0, 0, 0, 0] 8
      = ⟨[0, 0, 0, 0, 0, 0, 0, 0], Except.ok false⟩ ∧
    esw_list_find Discipline.USE_RCU
        (some ⟨[⟨[98, 0], [50, 0], 50⟩, ⟨[97, 0], [57, 57, 0], 114⟩]⟩) (some [99, 0])
        [0, 0, 0, 0, 0, 0, 0, 0] 8
      = ⟨[0, 0, 0, 0, 0, 0, 0, 0], Except.ok false⟩ := by
  decide

/-- C3: under every discipline, any finite sequence of push and update calls
on the initialised empty list runs to completion, and every node of the
resulting chain stores the checksum of the value it currently holds. -/
theorem checksum_invariant_reachable (d : Discipline) (ops : List Op) :
    ∃ l0 l, esw_list_init d true ⟨[]⟩ = Except.ok l0 ∧ l0.head = [] ∧
      run_ops d l0 ops = Except.ok l ∧
      ∀ n ∈ l.head, n.checksum = calc_checksum n.value := by
  obtain ⟨l, hrun, hinv⟩ := run_ops_checksum d ops ⟨[]⟩ (by simp)
  refine ⟨⟨[]⟩, l, ?_, rfl, hrun, hinv⟩
  cases d <;> rfl

/-- C4: update with a key that no node carries reports no error and returns
the list as it was, node for node. -/
theorem update_absent_key_unchanged (d : Discipline) (l : LIST_TYPE) (k v : List Int)
    (h : ∀ n ∈ l.head, strcmp_eq n.key k = false) :
    esw_list_update d (some l) k v = Except.ok l := by
  cases d
  · exact congrArg (fun ns => Except.ok (LIST_TYPE.mk ns)) (update_loop_no_match k v l.head h)
  · exact congrArg (fun ns => Except.ok (LIST_TYPE.mk ns)) (update_loop_no_match k v l.head h)
  · exact congrArg (fun ns => Except.ok (LIST_TYPE.mk ns))
      (update_loop_rcu_no_match k v l.head h)

theorem update_absent_key_unchanged_witness :
    (∀ n ∈ (LIST_TYPE.mk [⟨[98, 0], [50, 0], 50⟩, ⟨[97, 0], [49, 0], 49⟩]).head,
        strcmp_eq n.key [99, 0] = false) ∧
    esw_list_update Discipline.USE_RWLOCK
        (some ⟨[⟨[98, 0], [50, 0], 50⟩, ⟨[97, 0], [49, 0], 49⟩]⟩) [99, 0] [51, 0]
      = Except.ok ⟨[⟨[98, 0], [50, 0], 50⟩, ⟨[97, 0], [49, 0], 49⟩]⟩ :=
  ⟨by decide, update_absent_key_unchanged _ _ _ _ (by decide)⟩

/-- C5: find with a key that no node carries returns false and leaves the
buffer exactly as it was, whatever the buffer held and whatever `max_len`. -/
theorem find_absent_key_untouched (d : Discipline) (l : LIST_TYPE) (k buf : List Int)
    (max_len : Nat) (h : ∀ n ∈ l.head, strcmp_eq n.key k = false) :
    esw_list_find d (some l) (some k) buf max_len = ⟨buf, Except.ok false⟩ := by
  cases d
  · exact find_loop_no_match k buf max_len l.head h
  · exact find_loop_no_match k buf max_len l.head h
  · exact congrArg (fun b => find_result.mk buf (Except.ok b))
      (find_loop_rcu_no_match k buf l.head h)

theorem find_absent_key_untouched_witness :
    (∀ n ∈ (LIST_TYPE.mk [⟨[98, 0], [50, 0], 50⟩, ⟨[97, 0], [49, 0], 49⟩]).head,
        strcmp_eq n.key [99, 0] = false) ∧
    esw_list_find Discipline.USE_MUTEX
        (some ⟨[⟨[98, 0], [50, 0], 50⟩, ⟨[97, 0], [49, 0], 49⟩]⟩) (some [99, 0])
        [120, 121, 0, 122] 4
      = ⟨[120, 121, 0, 122], Except.ok false⟩ :=
  ⟨by decide, find_absent_key_untouched _ _ _ _ _ (by decide)⟩

/-- C6: update rewrites only the first node, counted from the head, whose key
matches: the chain keeps its length and order, the nodes before and after
(later nodes with the same key among them) are untouched, and the node in
that place keeps its key, holds an owned copy of the new value and the
checksum of that value. -/
theorem update_first_match_only (d : Discipline) (pre post : List esw_node_t)
    (n : esw_node_t) (k v : List Int)
    (hpre : ∀ m ∈ pre, strcmp_eq m.key k = false) (hn : strcmp_eq n.key k = true) :
    ∃ n1, esw_list_update d (some ⟨pre ++ n :: post⟩) k v = Except.ok ⟨pre ++ n1 :: post⟩ ∧
      c_str n1.key = c_str n.key ∧ (d = Discipline.USE_RCU ∨ n1.key = n.key) ∧
      n1.value = c_str v ++ [0] ∧ n1.checksum = calc_checksum v := by
  by_cases hd : d = Discipline.USE_RCU
  · subst hd
    refine ⟨esw_list_create_node k v, ?_, ?_, Or.inl rfl, ?_, rfl⟩
    · rw [esw_list_update_rcu]
      exact congrArg (fun ns => Except.ok (LIST_TYPE.mk ns))
        (update_loop_rcu_first_match k v pre post n hpre hn)
    · have hk : c_str n.key = c_str k := by simpa [strcmp_eq] using hn
      simp only [esw_list_create_node, c_str_strcpy, hk]
    · simp only [esw_list_create_node, owned_copy]
  · refine ⟨⟨n.key, strcpy (calloc (strlen v + 1)) v,
        calc_checksum (strcpy (calloc (strlen v + 1)) v)⟩, ?_, rfl, Or.inr rfl, ?_, ?_⟩
    · rw [esw_list_update_locking d hd]
      exact congrArg (fun ns => Except.ok (LIST_TYPE.mk ns))
        (update_loop_first_match k v pre post n hpre hn)
    · exact owned_copy v
    · exact calc_checksum_strcpy _ v

theorem update_first_match_only_witness :
    (∀ m ∈ [(⟨[98, 0], [50, 0], 50⟩ : esw_node_t)], strcmp_eq m.key [97, 0] = false) ∧
    strcmp_eq (esw_node_t.mk [97, 0] [49, 0] 49).key [97, 0] = true ∧
    ∃ n1, esw_list_update Discipline.USE_RCU
        (some ⟨[⟨[98, 0], [50, 0], 50⟩] ++ ⟨[97, 0], [49, 0], 49⟩ :: [⟨[97, 0], [51, 0], 51⟩]⟩)
        [97, 0] [57, 57, 0]
        = Except.ok ⟨[⟨[98, 0], [50, 0], 50⟩] ++ n1 :: [⟨[97, 0], [51, 0], 51⟩]⟩ ∧
      c_str n1.key = c_str (esw_node_t.mk [97, 0] [49, 0] 49).key ∧
      (Discipline.USE_RCU = Discipline.USE_RCU ∨ n1.key = (esw_node_t.mk [97, 0] [49, 0] 49).key) ∧
      n1.value = c_str [57, 57, 0] ++ [0] ∧ n1.checksum = calc_checksum [57, 57, 0] :=
  ⟨by decide, by decide, update_first_match_only _ _ _ _ _ _ (by decide) (by decide)⟩

/-- C7: push with present key and value succeeds under every discipline; the
chain becomes the new node followed by the previous chain unchanged, and the
new node owns a terminated copy of the key, a terminated copy of the value
and the checksum of the value. -/
theorem push_prepends_node (d : Discipline) (l : LIST_TYPE) (k v : List Int) :
    ∃ n, esw_list_push d (some l) (some k) (some v) = Except.ok ⟨n :: l.head⟩ ∧
      n.key = c_str k ++ [0] ∧ n.value = c_str v ++ [0] ∧
      n.checksum = calc_checksum v := by
  refine ⟨esw_list_create_node k v, esw_list_push_some d l k v, ?_, ?_, rfl⟩
  · simp only [esw_list_create_node, owned_copy]
  · simp only [esw_list_create_node, owned_copy]

/-- C8 as stated fails: on a string of 16909321 chars of value 127 the plain
sum is 2147483767, beyond the range of `int`, and the result is not that
sum. -/
theorem calc_checksum_overflows :
    calc_checksum (List.replicate 16909321 127) ≠ (List.replicate 16909321 127).sum := by
  have hz : (0 : Int) ∉ List.replicate 16909321 (127 : Int) := by
    intro h
    have := List.eq_of_mem_replicate h
    omega
  rw [calc_checksum_eq_wrap, c_str_of_no_zero _ hz, List.sum_replicate]
  simp only [wrap_int, smul_eq_mul]
  norm_num

/-- C8, amended: the checksum is the sum of the chars of the string taken
into the range of the 32-bit `int` result, for every string; it is 0 for the
empty string. -/
theorem calc_checksum_wrapped_sum (s : List Int) :
    calc_checksum s = wrap_int (c_str s).sum ∧ calc_checksum [] = 0 :=
  ⟨calc_checksum_eq_wrap s, rfl⟩

/-- C9, evaluated under `USE_RWLOCK`: init on a handle whose head still holds
a node ("a", "1") leaves that node in place, and find("a") on the freshly
initialised list returns true, where the claim has every find return false. -/
theorem rwlock_init_keeps_head :
    esw_list_init Discipline.USE_RWLOCK true ⟨[⟨[97, 0], [49, 0], 49⟩]⟩
      = Except.ok ⟨[⟨[97, 0], [49, 0], 49⟩]⟩ ∧
    esw_list_find Discipline.USE_RWLOCK (some ⟨[⟨[97, 0], [49, 0], 49⟩]⟩) (some [97, 0])
        [0, 0, 0, 0, 0, 0, 0, 0] 8
      = ⟨[49, 0, 0, 0, 0, 0, 0, 0], Except.ok true⟩ := by
  decide

/-- C10, evaluated under `USE_RCU`: with a node ("k", fifty chars) in the
list, find("k") with a zeroed buffer and `max_len = 8` returns false and
writes nothing, where the claim has the first seven chars and a terminator
written. -/
theorem rcu_find_writes_nothing :
    esw_list_find Discipline.USE_RCU
        (some ⟨[esw_list_create_node [107, 0] (List.replicate 50 120 ++ [0])]⟩)
        (some [107, 0]) [0, 0, 0, 0, 0, 0, 0, 0] 8
      = ⟨[0, 0, 0, 0, 0, 0, 0, 0], Except.ok false⟩ ∧
    strlen (esw_list_create_node [107, 0] (List.replicate 50 120 ++ [0])).value = 50 := by
  decide

/-- C11 as stated fails: under `USE_MUTEX`, take a node with key "a" whose
value is the three chars 65, 1 and -1 (the bytes 41, 01 and FF read through a
signed `char`) and whose checksum 65 is the checksum of that value.  With
`max_len = 2` the copy is cut to "A", whose checksum is 65 as well, and find
returns true instead of ending in the "wrong checksum" error. -/
theorem find_truncated_returns_true :
    (esw_node_t.mk [97, 0] [65, 1, -1, 0] 65).checksum
      = calc_checksum (esw_node_t.mk [97, 0] [65, 1, -1, 0] 65).value ∧
    first_match [97, 0] [⟨[97, 0], [65, 1, -1, 0], 65⟩] = some ⟨[97, 0], [65, 1, -1, 0], 65⟩ ∧
    2 ≤ strlen (esw_node_t.mk [97, 0] [65, 1, -1, 0] 65).value ∧
    esw_list_find Discipline.USE_MUTEX (some ⟨[⟨[97, 0], [65, 1, -1, 0], 65⟩]⟩) (some [97, 0])
        [9, 9, 9, 9] 2
      = ⟨[65, 0, 9, 9], Except.ok true⟩ := by
  decide

/-- C11, amended: under the mutex and reader-writer disciplines, when the
first node matching the key stores its own checksum and a value of at least
`max_len` chars (`max_len` at least 1, the buffer at least `max_len` chars),
find writes the first `max_len - 1` chars and a terminator, checks the
checksum of that cut copy against the stored one, and ends in the "wrong
checksum" error exactly when the chars cut off have a non-zero sum in `int`
arithmetic, returning true otherwise; it ends in the error whenever all chars
of the value are positive and their sum is within `int`. -/
theorem find_truncated_checksum (d : Discipline) (hd : d ≠ Discipline.USE_RCU)
    (l : LIST_TYPE) (k buf : List Int) (max_len : Nat) (n : esw_node_t)
    (hfirst : first_match k l.head = some n) (hsum : n.checksum = calc_checksum n.value)
    (h1 : 1 ≤ max_len) (hlen : max_len ≤ strlen n.value) (hcap : max_len ≤ buf.length) :
    (esw_list_find d (some l) (some k) buf max_len).value
      = (c_str n.value).take (max_len - 1) ++ 0 :: buf.drop max_len ∧
    (esw_list_find d (some l) (some k) buf max_len).found
      = (if wrap_int ((c_str n.value).drop (max_len - 1)).sum = 0 then Except.ok true
        else Except.error Fatal.wrong_checksum) ∧
    ((∀ c ∈ c_str n.value, 0 < c) → (c_str n.value).sum < 2147483648 →
      (esw_list_find d (some l) (some k) buf max_len).found
        = Except.error Fatal.wrong_checksum) := by
  rw [esw_list_find_locking d hd]
  have hfound := find_loop_long_found k buf max_len l.head n hfirst hsum h1 hlen hcap
  refine ⟨find_loop_long k buf max_len l.head n hfirst h1 hlen hcap, hfound, ?_⟩
  intro hpos hfit
  have hb := sum_drop_bounds (c_str n.value) (max_len - 1) hpos (by unfold strlen at hlen; omega)
  have hw : wrap_int ((c_str n.value).drop (max_len - 1)).sum
      = ((c_str n.value).drop (max_len - 1)).sum :=
    wrap_int_of_range (by omega) (by omega)
  rw [hfound, hw, if_neg (by omega)]

theorem find_truncated_checksum_witness :
    Discipline.USE_RWLOCK ≠ Discipline.USE_RCU ∧
    first_match [97, 0] (LIST_TYPE.mk [⟨[97, 0], [49, 50, 51, 52, 53, 0], 255⟩]).head
      = some ⟨[97, 0], [49, 50, 51, 52, 53, 0], 255⟩ ∧
    (esw_node_t.mk [97, 0] [49, 50, 51, 52, 53, 0] 255).checksum
      = calc_checksum (esw_node_t.mk [97, 0] [49, 50, 51, 52, 53, 0] 255).value ∧
    1 ≤ 3 ∧ 3 ≤ strlen (esw_node_t.mk [97, 0] [49, 50, 51, 52, 53, 0] 255).value ∧
    3 ≤ [(9 : Int), 9, 9, 9, 9].length ∧
    ((esw_list_find Discipline.USE_RWLOCK (some ⟨[⟨[97, 0], [49, 50, 51, 52, 53, 0], 255⟩]⟩)
        (some [97, 0]) [9, 9, 9, 9, 9] 3).value
      = (c_str (esw_node_t.mk [97, 0] [49, 50, 51, 52, 53, 0] 255).value).take (3 - 1)
          ++ 0 :: [(9 : Int), 9, 9, 9, 9].drop 3 ∧
    (esw_list_find Discipline.USE_RWLOCK (some ⟨[⟨[97, 0], [49, 50, 51, 52, 53, 0], 255⟩]⟩)
        (some [97, 0]) [9, 9, 9, 9, 9] 3).found
      = (if wrap_int ((c_str (esw_node_t.mk [97, 0] [49, 50, 51, 52, 53, 0] 255).value).drop
            (3 - 1)).sum = 0 then Except.ok true
        else Except.error Fatal.wrong_checksum) ∧
    ((∀ c ∈ c_str (esw_node_t.mk [97, 0] [49, 50, 51, 52, 53, 0] 255).value, 0 < c) →
      (c_str (esw_node_t.mk [97, 0] [49, 50, 51, 52, 53, 0] 255).value).sum < 2147483648 →
      (esw_list_find Discipline.USE_RWLOCK (some ⟨[⟨[97, 0], [49, 50, 51, 52, 53, 0], 255⟩]⟩)
        (some [97, 0]) [9, 9, 9, 9, 9] 3).found
        = Except.error Fatal.wrong_checksum)) :=
  ⟨by decide, by decide, by decide, by decide, by decide, by decide,
    find_truncated_checksum Discipline.USE_RWLOCK (by decide)
      ⟨[⟨[97, 0], [49, 50, 51, 52, 53, 0], 255⟩]⟩ [97, 0] [9, 9, 9, 9, 9] 3
      ⟨[97, 0], [49, 50, 51, 52, 53, 0], 255⟩ (by decide) (by decide) (by decide) (by decide)
      (by decide)⟩

/-- C12, evaluated on the chain that push("k", "old"), push("k", "new")
build, `max_len = 8`: with a zeroed buffer the mutex find returns true and
leaves "new", the value of the first node with the key, in the buffer, while
the lock-free find returns false and leaves the buffer zeroed; with a buffer
that already holds "old" the lock-free find returns true on the strength of
the second node and leaves "old", where the mutex find leaves "new". -/
theorem rcu_find_differs_from_mutex_find :
    run_ops Discipline.USE_RCU ⟨[]⟩
        [Op.push [107, 0] [111, 108, 100, 0], Op.push [107, 0] [110, 101, 119, 0]]
      = Except.ok ⟨[⟨[107, 0], [110, 101, 119, 0], 330⟩, ⟨[107, 0], [111, 108, 100, 0], 319⟩]⟩ ∧
    run_ops Discipline.USE_MUTEX ⟨[]⟩
        [Op.push [107, 0] [111, 108, 100, 0], Op.push [107, 0] [110, 101, 119, 0]]
      = Except.ok ⟨[⟨[107, 0], [110, 101, 119, 0], 330⟩, ⟨[107, 0], [111, 108, 100, 0], 319⟩]⟩ ∧
    esw_list_find Discipline.USE_MUTEX
        (some ⟨[⟨[107, 0], [110, 101, 119, 0], 330⟩, ⟨[107, 0], [111, 108, 100, 0], 319⟩]⟩)
        (some [107, 0]) [0, 0, 0, 0, 0, 0, 0, 0] 8
      = ⟨[110, 101, 119, 0, 0, 0, 0, 0], Except.ok true⟩ ∧
    esw_list_find Discipline.USE_RCU
        (some ⟨[⟨[107, 0], [110, 101, 119, 0], 330⟩, ⟨[107, 0], [111, 108, 100, 0], 319⟩]⟩)
        (some [107, 0]) [0, 0, 0, 0, 0, 0, 0, 0] 8
      = ⟨[0, 0, 0, 0, 0, 0, 0, 0], Except.ok false⟩ ∧
    esw_list_find Discipline.USE_MUTEX
        (some ⟨[⟨[107, 0], [110, 101, 119, 0], 330⟩, ⟨[107, 0], [111, 108, 100, 0], 319⟩]⟩)
        (some [107, 0]) [111, 108, 100, 0, 0, 0, 0, 0] 8
      = ⟨[110, 101, 119, 0, 0, 0, 0, 0], Except.ok true⟩ ∧
    esw_list_find Discipline.USE_RCU
        (some ⟨[⟨[107, 0], [110, 101, 119, 0], 330⟩, ⟨[107, 0], [111, 108, 100, 0], 319⟩]⟩)
        (some [107, 0]) [111, 108, 100, 0, 0, 0, 0, 0] 8
      = ⟨[111, 108, 100, 0, 0, 0, 0, 0], Except.ok true⟩ := by
  decide

/-- C13: a call of push either has all three of list, key and value present,
ends without error, creates exactly one node and links it first; or has at
least one of them null, ends in the reported "null argument" failure, creates
no node and leaves the chain the handle reaches as it was.  The two cases
exclude each other, so the failure occurs exactly when an argument is
null. -/
theorem push_fails_iff_null_argument (d : Discipline) (list : Option LIST_TYPE)
    (key value : Option (List Int)) :
    ((∃ l k v, list = some l ∧ key = some k ∧ value = some v ∧
        esw_list_push_state d list key value
          = ⟨some ⟨esw_list_create_node k v :: l.head⟩, [esw_list_create_node k v],
              Except.ok ()⟩ ∧
        esw_list_push d list key value
          = Except.ok ⟨esw_list_create_node k v :: l.head⟩) ∨
      ((list = none ∨ key = none ∨ value = none) ∧
        esw_list_push_state d list key value = ⟨list, [], Except.error Fatal.null_argument⟩ ∧
        esw_list_push d list key value = Except.error Fatal.null_argument)) ∧
    ((esw_list_push_state d list key value).outcome = Except.error Fatal.null_argument ↔
      (list = none ∨ key = none ∨ value = none)) := by
  cases list with
  | none => exact ⟨Or.inr ⟨Or.inl rfl, rfl, rfl⟩, by simp [esw_list_push_state, CHECKNULL]⟩
  | some l =>
    cases key with
    | none =>
      exact ⟨Or.inr ⟨Or.inr (Or.inl rfl), rfl, rfl⟩, by simp [esw_list_push_state, CHECKNULL]⟩
    | some k =>
      cases value with
      | none =>
        exact ⟨Or.inr ⟨Or.inr (Or.inr rfl), rfl, rfl⟩, by simp [esw_list_push_state, CHECKNULL]⟩
      | some v =>
        refine ⟨Or.inl ⟨l, k, v, rfl, rfl, rfl, ?_, ?_⟩, ?_⟩
        · cases d <;> rfl
        · cases d <;> rfl
        · cases d <;> simp [esw_list_push_state, CHECKNULL]

/-- C15: from any starting chain, any finite sequence of push and update
calls runs to completion under `USE_RCU`, and the entries (key string, value
string, checksum) it leaves, in traversal order, are those the specification
prescribes (push puts the new entry first; update gives the first entry with
the key the new value and its checksum, in place, all others untouched) and
those the same calls leave under every other discipline. -/
theorem rcu_push_update_same_entries (l : LIST_TYPE) (ops : List Op) :
    ∃ l1, run_ops Discipline.USE_RCU l ops = Except.ok l1 ∧
      entries l1.head = spec_run (entries l.head) ops ∧
      ∀ d : Discipline, ∃ l2, run_ops d l ops = Except.ok l2 ∧
        entries l2.head = entries l1.head := by
  obtain ⟨l1, h1, e1⟩ := run_ops_entries Discipline.USE_RCU ops l
  refine ⟨l1, h1, e1, ?_⟩
  intro d
  obtain ⟨l2, h2, e2⟩ := run_ops_entries d ops l
  exact ⟨l2, h2, e2.trans e1.symm⟩

/-- C16: on every list that a finite sequence of push and update calls builds
from the empty list, find with `max_len` greater than the length of the value
in the first node matching the key returns a flag, under every discipline;
the call does not end in the "wrong checksum" error. -/
theorem find_untruncated_returns (d : Discipline) (ops : List Op) (l : LIST_TYPE)
    (k buf : List Int) (max_len : Nat)
    (hrun : run_ops d ⟨[]⟩ ops = Except.ok l)
    (hlen : ∀ n, first_match k l.head = some n → strlen n.value < max_len) :
    ∃ b, (esw_list_find d (some l) (some k) buf max_len).found = Except.ok b := by
  obtain ⟨l1, hrun1, hinv⟩ := run_ops_checksum d ops ⟨[]⟩ (by simp)
  rw [hrun] at hrun1
  cases hrun1
  by_cases hd : d = Discipline.USE_RCU
  · subst hd
    exact ⟨_, rfl⟩
  · rw [esw_list_find_locking d hd]
    exact ⟨_, find_loop_returns k buf max_len l.head hinv hlen⟩

theorem find_untruncated_returns_witness :
    run_ops Discipline.USE_MUTEX ⟨[]⟩ [Op.push [97, 0] [49, 0], Op.update [97, 0] [57, 57, 0]]
      = Except.ok ⟨[⟨[97, 0], [57, 57, 0], 114⟩]⟩ ∧
    (∀ n, first_match [97, 0] (LIST_TYPE.mk [⟨[97, 0], [57, 57, 0], 114⟩]).head = some n →
      strlen n.value < 3) ∧
    ∃ b, (esw_list_find Discipline.USE_MUTEX (some ⟨[⟨[97, 0], [57, 57, 0], 114⟩]⟩)
        (some [97, 0]) [0, 0, 0] 3).found = Except.ok b :=
  have hlen : ∀ n, first_match [97, 0] (LIST_TYPE.mk [⟨[97, 0], [57, 57, 0], 114⟩]).head = some n →
      strlen n.value < 3 := by
    intro n h
    have hn : n = ⟨[97, 0], [57, 57, 0], 114⟩ := (Option.some.inj h).symm
    subst hn
    decide
  ⟨by decide, hlen, find_untruncated_returns Discipline.USE_MUTEX
    [Op.push [97, 0] [49, 0], Op.update [97, 0] [57, 57, 0]] _ [97, 0] [0, 0, 0] 3
    (by decide) hlen⟩

/-- C18: for a string `a` without a terminator inside and any continuation
`b`, the checksum of `a` followed by `b` is the sum of the two checksums in
the 32-bit arithmetic of the `int` result; every rearrangement of the chars
of `a` has the checksum of `a`, with or without a terminator and further
memory behind it; "ab" and "ba" both give 195. -/
theorem calc_checksum_additive (a b : List Int) (ha : (0 : Int) ∉ a) :
    calc_checksum (a ++ b) = wrap_int (calc_checksum a + calc_checksum b) ∧
    (∀ p : List Int, p.Perm a →
      calc_checksum p = calc_checksum a ∧
      ∀ t u : List Int, calc_checksum (p ++ 0 :: t) = calc_checksum (a ++ 0 :: u)) ∧
    calc_checksum [97, 98, 0] = 195 ∧ calc_checksum [98, 97, 0] = 195 := by
  refine ⟨calc_checksum_append a b ha, ?_, by decide, by decide⟩
  intro p hp
  refine ⟨calc_checksum_perm hp ha, ?_⟩
  intro t u
  have hz : (0 : Int) ∉ p := fun hm => ha (hp.mem_iff.mp hm)
  have h0 : ∀ w : List Int, calc_checksum ((0 : Int) :: w) = 0 := fun w => rfl
  rw [calc_checksum_append p _ hz, calc_checksum_append a _ ha, h0, h0,
    calc_checksum_perm hp ha]

theorem calc_checksum_additive_witness :
    (0 : Int) ∉ [(97 : Int)] ∧
    (calc_checksum ([97] ++ [98]) = wrap_int (calc_checksum [97] + calc_checksum [98]) ∧
      (∀ p : List Int, p.Perm [97] →
        calc_checksum p = calc_checksum [97] ∧
        ∀ t u : List Int, calc_checksum (p ++ 0 :: t) = calc_checksum ([97] ++ 0 :: u)) ∧
      calc_checksum [97, 98, 0] = 195 ∧ calc_checksum [98, 97, 0] = 195) :=
  ⟨by decide, calc_checksum_additive [97] [98] (by decide)⟩

end EswRcu
